import Mathlib

/-!
# Verification of the rust-ml preprocessing core

A shallow embedding of the dataset ingestion and fit/transform
preprocessing algorithms of the `rust-ml` crate (CSV ingestion into
`Dataset` / `MixedDataset`, label encoder, one-hot encoder, min-max
scaler), together with proofs of the specified properties.

Machine floats (`f64`) are modelled as exact rationals `Rat`; Rust
`HashMap`s are modelled as association lists whose lookup returns the
most recently inserted binding for a key.  A Rust panic (out-of-bounds
index) is modelled by the dedicated `Outcome.panics` constructor.
-/

set_option maxHeartbeats 1000000

namespace RustML

/-- Error kinds of `base::error::ErrorKind`. -/
inductive ErrorKind where
  | InvalidParameters
  | InvalidData
  | InvalidState
  | UntrainedModel
  | LinAlgError
deriving DecidableEq, Repr

/-- Fit status of `preprocessing::FitStatus`. -/
inductive FitStatus where
  | NotFit
  | Fit
deriving DecidableEq, Repr

/-- Result of running a Rust function that can either panic (index out of
bounds), return `Err`, or return `Ok`. -/
inductive Outcome (α : Type) where
  | panics
  | error (k : ErrorKind)
  | ok (a : α)
deriving DecidableEq, Repr

/-- rulinalg `Matrix` viewed as an opaque rectangular buffer: row-major
flat data with row/column dimensions (`Matrix::new(rows, cols, data)`). -/
structure Matrix (α : Type) where
  rows : Nat
  cols : Nat
  data : List α
deriving DecidableEq, Repr

/-- `Matrix` row iteration (`row_iter`): row `i` is the `cols`-sized slice
of the flat buffer starting at `i * cols`. -/
def Matrix.rowList {α : Type} (m : Matrix α) : List (List α) :=
  (List.range m.rows).map (fun i => ((m.data.drop (i * m.cols)).take m.cols))

/-- `Dataset<X, Y>`: homogeneous feature container. -/
structure Dataset (X Y : Type) where
  data : X
  target : Y
  data_columns : List String
  target_column : String
deriving DecidableEq, Repr

/-- `MixedDataValue`: tagged numeric-or-categorical cell value. -/
inductive MixedDataValue where
  | Numeric (v : Rat)
  | Categorical (s : String)
deriving DecidableEq, Repr

/-- `MixedDataset<Y>`: per-cell heterogeneous feature container. -/
structure MixedDataset (Y : Type) where
  data : List (List MixedDataValue)
  target : Y
  data_columns : List String
  target_column : String
deriving DecidableEq, Repr

/-- Lookup in an association list, returning the first binding for the
key.  Models `HashMap::get` provided insertions prepend (so the first
binding found is the most recent insertion). -/
def alookup {α β : Type} [DecidableEq α] : List (α × β) → α → Option β
  | [], _ => none
  | p :: ps, k => if p.1 = k then some p.2 else alookup ps k

@[simp] theorem alookup_nil {α β : Type} [DecidableEq α] (k : α) :
    alookup ([] : List (α × β)) k = none := rfl

@[simp] theorem alookup_cons {α β : Type} [DecidableEq α]
    (p : α × β) (ps : List (α × β)) (k : α) :
    alookup (p :: ps) k = if p.1 = k then some p.2 else alookup ps k := rfl

theorem alookup_mem {α β : Type} [DecidableEq α] :
    ∀ (l : List (α × β)) (k : α) (v : β), alookup l k = some v → (k, v) ∈ l := by
  intro l
  induction l with
  | nil => intro k v h; simp [alookup] at h
  | cons p ps ih =>
    intro k v h
    by_cases hk : p.1 = k
    · simp [alookup, hk] at h
      subst hk
      simp [← h]
    · simp [alookup, hk] at h
      exact List.mem_cons_of_mem _ (ih k v h)

/-! ## Label encoder (`preprocessing::encoders::labelencoder`) -/

/-- `LabelEncoderFitter<K, V>` with `V = f64` modelled as `Rat`.  The
`label_map` `HashMap` is modelled as an association list in insertion
order (the fitter only ever inserts fresh keys, so order of bindings is
irrelevant to lookup). -/
structure LabelEncoderFitter (K : Type) where
  label_map : List (K × Rat)
  fit : FitStatus
deriving Repr

/-- `LabelEncoder<K, V>`. -/
structure LabelEncoder (K : Type) where
  fitter : LabelEncoderFitter K
deriving Repr

/-- One step of `LabelEncoderFitter::fit`'s loop: state is the map built
so far and the running `encoder_value`; an unseen label is inserted with
the current counter value and the counter advances by one. -/
def labelFitStep {K : Type} [DecidableEq K]
    (st : List (K × Rat) × Rat) (value : K) : List (K × Rat) × Rat :=
  if (alookup st.1 value).isSome then st
  else (st.1 ++ [(value, st.2)], st.2 + 1)

/-- The label map computed by `LabelEncoderFitter::fit` on `input`. -/
def labelFitMap {K : Type} [DecidableEq K] (input : List K) : List (K × Rat) :=
  (input.foldl labelFitStep ([], 0)).1

/-- `LabelEncoderFitter::fit`: walks the input once, assigning codes
`0, 1, 2, …` to distinct labels in first-seen order; always returns `Ok`.
(Named `fitOn` because `fit` is taken by the fit-status field.) -/
def LabelEncoderFitter.fitOn {K : Type} [DecidableEq K]
    (input : List K) : Except ErrorKind (LabelEncoder K) :=
  .ok { fitter := { label_map := labelFitMap input, fit := .Fit } }

/-- The element loop of `LabelEncoder::transform`: look up each element's
code in the map, aborting with `InvalidState` on the first absent one. -/
def lookupCodes {K : Type} [DecidableEq K] (label_map : List (K × Rat)) :
    List K → Except ErrorKind (List Rat)
  | [] => .ok []
  | v :: vs =>
      match alookup label_map v with
      | some c =>
          match lookupCodes label_map vs with
          | .ok rest => .ok (c :: rest)
          | .error k => .error k
      | none => .error .InvalidState

/-- `LabelEncoder::transform`: looks up each element's code in the fitted
map; an absent element aborts the whole call with `InvalidState`. -/
def LabelEncoder.transform {K : Type} [DecidableEq K]
    (e : LabelEncoder K) (input : List K) : Except ErrorKind (List Rat) :=
  lookupCodes e.fitter.label_map input

/-! ## One-hot encoder (`preprocessing::encoders::onehotencoder`) -/

/-- `OneHotEncoderFitter<Y>`.  The outer `HashMap<String, HashMap<String,
usize>>` is modelled as an association list whose inner maps are in
insertion order; `fitOn` prepends bindings, so `alookup` returns the most
recently inserted map for a column name, matching `HashMap::insert`
overwrite semantics. -/
structure OneHotEncoderFitter (Y : Type) where
  category_map : List (String × List (String × Nat))
  fit : FitStatus
deriving Repr

/-- `OneHotEncoder<Y>`. -/
structure OneHotEncoder (Y : Type) where
  fitter : OneHotEncoderFitter Y
deriving Repr

/-- One step of the per-column scan in `OneHotEncoderFitter::fit`: if the
cell of `row` at `colIndex` is categorical and its value unseen, append it
to the column map with index `map.len()` (the `entry … or_insert_with`
call).  The source indexes `row[col_index]`, which panics on a ragged row;
the `getD` default is only reached in that (invariant-violating) case and
then leaves the map unchanged. -/
def colMapStep (colIndex : Nat) (map : List (String × Nat))
    (row : List MixedDataValue) : List (String × Nat) :=
  match row.getD colIndex (.Numeric 0) with
  | .Categorical value =>
      if (alookup map value).isSome then map else map ++ [(value, map.length)]
  | .Numeric _ => map

/-- The category→index map `OneHotEncoderFitter::fit` builds for one
column: scan all rows in order. -/
def buildColMap (colIndex : Nat) (rows : List (List MixedDataValue)) :
    List (String × Nat) :=
  rows.foldl (colMapStep colIndex) []

/-- The loop of `OneHotEncoderFitter::fit` over the enumerated
`data_columns`: a non-empty column map is inserted into the accumulator
(prepended, so `alookup` sees the latest insertion first, as a `HashMap`
would). -/
def fitCatMapGo (rows : List (List MixedDataValue)) :
    Nat → List String → List (String × List (String × Nat)) →
      List (String × List (String × Nat))
  | _, [], acc => acc
  | ci, cn :: cns, acc =>
      let m := buildColMap ci rows
      fitCatMapGo rows (ci + 1) cns (if m = [] then acc else (cn, m) :: acc)

/-- The full category map computed by `OneHotEncoderFitter::fit`. -/
def oheFitCategoryMap {Y : Type} (input : MixedDataset Y) :
    List (String × List (String × Nat)) :=
  fitCatMapGo input.data 0 input.data_columns []

/-- `OneHotEncoderFitter::fit`: records per-column category maps (only
non-empty ones), sets fit status, always returns `Ok`. -/
def OneHotEncoderFitter.fitOn {Y : Type} (input : MixedDataset Y) :
    Except ErrorKind (OneHotEncoder Y) :=
  .ok { fitter := { category_map := oheFitCategoryMap input, fit := .Fit } }

/-- Stable insertion by index key (helper for `sortByIdx`). -/
def insertByIdx (p : String × Nat) : List (String × Nat) → List (String × Nat)
  | [] => [p]
  | q :: qs => if p.2 < q.2 then p :: q :: qs else q :: insertByIdx p qs

/-- The `sort_by_key(|&(_, &index)| index)` call in
`OneHotEncoder::transform`, modelled as a stable insertion sort. -/
def sortByIdx : List (String × Nat) → List (String × Nat)
  | [] => []
  | p :: ps => insertByIdx p (sortByIdx ps)

/-- Output column names contributed by one input column in
`OneHotEncoder::transform`: `"<column>_<category>"` per category in index
order for a mapped column, the column name itself otherwise. -/
def oheColNames (category_map : List (String × List (String × Nat)))
    (col_name : String) : List String :=
  match alookup category_map col_name with
  | some m => (sortByIdx m).map (fun p => col_name ++ "_" ++ p.1)
  | none => [col_name]

/-- All output column names of `OneHotEncoder::transform`: replay
`data_columns` in order. -/
def oheNames (category_map : List (String × List (String × Nat)))
    (data_columns : List String) : List String :=
  data_columns.flatMap (oheColNames category_map)

/-- Values contributed by one cell in `OneHotEncoder::transform`: a
categorical cell in a mapped column becomes a zero block of the map's
size with `1.0` at the fitted index (nothing set for an unseen category);
a categorical cell in an unmapped column contributes nothing; a numeric
cell passes through. -/
def encodeCell (category_map : List (String × List (String × Nat)))
    (col_name : String) : MixedDataValue → List Rat
  | .Categorical val =>
      match alookup category_map col_name with
      | some m =>
          match alookup m val with
          | some index => (List.replicate m.length (0 : Rat)).set index 1
          | none => List.replicate m.length (0 : Rat)
      | none => []
  | .Numeric num => [num]

/-- One transformed row in `OneHotEncoder::transform`: each cell is
encoded under the name of its column (`input.data_columns()[col_index]`,
which panics on a row longer than `data_columns`; the `getD` default is
only reached in that invariant-violating case). -/
def encodeRow (category_map : List (String × List (String × Nat)))
    (data_columns : List String) (row : List MixedDataValue) : List Rat :=
  row.enum.flatMap (fun p => encodeCell category_map (data_columns.getD p.1 "") p.2)

/-- `OneHotEncoder::transform`: builds the replayed column names and the
encoded rows, then a matrix whose column count is the first encoded row's
length (`transformed_data[0]` — a panic when the input has no rows). -/
def OneHotEncoder.transform {Y : Type} (e : OneHotEncoder Y)
    (input : MixedDataset Y) : Outcome (Dataset (Matrix Rat) Y) :=
  let new_column_names := oheNames e.fitter.category_map input.data_columns
  match input.data.map (encodeRow e.fitter.category_map input.data_columns) with
  | [] => .panics
  | r0 :: rest =>
      .ok { data := { rows := (r0 :: rest).length, cols := r0.length,
                      data := (r0 :: rest).flatten },
            target := input.target,
            data_columns := new_column_names,
            target_column := input.target_column }

/-! ## Min-max scaler (`preprocessing::scalers::minmaxscaler`) -/

/-- The exact value of `f64::MAX`. -/
def f64MAX : Rat := 2 ^ 1024 - 2 ^ 971

/-- The exact value of `f64::MIN` (`= -f64::MAX`). -/
def f64MIN : Rat := -f64MAX

/-- `MinMaxFitter<Y>` (field `num_featues` keeps the source's spelling). -/
structure MinMaxFitter where
  num_featues : Nat
  scaled_min : Rat
  scaled_max : Rat
  min_values : List Rat
  max_values : List Rat
  scale_factors : List Rat
  constant_factors : List Rat
  fit : FitStatus
deriving Repr

/-- `MinMaxScaler<Y>`. -/
structure MinMaxScaler where
  fitter : MinMaxFitter
deriving Repr

/-- `MinMaxFitter::new(min, max)`. -/
def MinMaxFitter.new (min max : Rat) : MinMaxFitter :=
  { num_featues := 0, scaled_min := min, scaled_max := max,
    min_values := [], max_values := [], scale_factors := [],
    constant_factors := [], fit := .NotFit }

/-- `MinMaxFitter::default()`: scaled range `[0, 1]`. -/
def MinMaxFitter.mkDefault : MinMaxFitter := MinMaxFitter.new 0 1

/-- One element step of the min/max pass in `MinMaxFitter::fit`
(indexing `min_values[idx]` / `max_values[idx]`; the `getD` default is
only reached when a row is longer than the feature count, where the
source would panic). -/
def minmaxStep (st : List Rat × List Rat) (p : Nat × Rat) :
    List Rat × List Rat :=
  let mins := if p.2 < st.1.getD p.1 0 then st.1.set p.1 p.2 else st.1
  let maxs := if p.2 > st.2.getD p.1 0 then st.2.set p.1 p.2 else st.2
  (mins, maxs)

/-- One row of the min/max pass in `MinMaxFitter::fit`. -/
def minmaxRow (st : List Rat × List Rat) (row : List Rat) :
    List Rat × List Rat :=
  row.enum.foldl minmaxStep st

/-- The per-feature `(min_values, max_values)` computed by
`MinMaxFitter::fit`, starting from `f64::MAX` / `f64::MIN`. -/
def minmaxValues (num_features : Nat) (rows : List (List Rat)) :
    List Rat × List Rat :=
  rows.foldl minmaxRow
    (List.replicate num_features f64MAX, List.replicate num_features f64MIN)

/-- `MinMaxFitter::fit`: computes per-feature min/max, then
`scale_factor = (scaled_max - scaled_min) / (max - min)` and
`constant_factor = scaled_min - min * scale_factor`; always returns `Ok`. -/
def MinMaxFitter.fitOn {Y : Type} (f : MinMaxFitter)
    (input : Dataset (Matrix Rat) Y) : Except ErrorKind MinMaxScaler :=
  let num_features := input.data_columns.length
  let mm := minmaxValues num_features input.data.rowList
  let scale_factors := (List.range num_features).map
    (fun i => (f.scaled_max - f.scaled_min) / (mm.2.getD i 0 - mm.1.getD i 0))
  let constant_factors := (List.range num_features).map
    (fun i => f.scaled_min - mm.1.getD i 0 *
      ((f.scaled_max - f.scaled_min) / (mm.2.getD i 0 - mm.1.getD i 0)))
  let fitted : MinMaxFitter :=
    { num_featues := num_features
      scaled_min := f.scaled_min
      scaled_max := f.scaled_max
      min_values := mm.1
      max_values := mm.2
      scale_factors := scale_factors
      constant_factors := constant_factors
      fit := .Fit }
  .ok { fitter := fitted }

/-- One scaled row in `MinMaxScaler::transform`:
`value * scale_factors[idx] + constant_factors[idx]`. -/
def scaleRow (scale_factors constant_factors : List Rat) (row : List Rat) :
    List Rat :=
  row.enum.map (fun p => p.2 * scale_factors.getD p.1 0 + constant_factors.getD p.1 0)

/-- `MinMaxScaler::transform`: `InvalidState` on feature-count mismatch,
otherwise an element-wise affine rescale into a fresh dataset with the
input's target and column metadata. -/
def MinMaxScaler.transform {Y : Type} (s : MinMaxScaler)
    (input : Dataset (Matrix Rat) Y) :
    Except ErrorKind (Dataset (Matrix Rat) Y) :=
  if s.fitter.num_featues ≠ input.data_columns.length then
    .error .InvalidState
  else
    let scaled : Matrix Rat :=
      { rows := input.data.rows
        cols := s.fitter.num_featues
        data := (input.data.rowList.map
          (scaleRow s.fitter.scale_factors s.fitter.constant_factors)).flatten }
    .ok { data := scaled
          target := input.target
          data_columns := input.data_columns
          target_column := input.target_column }

/-! ## CSV ingestion (`dataset::mod`) -/

/-- `headers.iter().position(|h| h == target_column)` in
`process_headers`. -/
def position (target_column : String) : List String → Option Nat
  | [] => none
  | h :: hs =>
      if h = target_column then some 0
      else (position target_column hs).map (· + 1)

/-- The per-record cell loop of `Dataset::from_csv`: the cell at the
target index is parsed with the label type's parser and pushed onto the
target values, every other cell with the feature type's parser; the
first parse failure aborts with `InvalidData`. -/
def parseCells {τ : Type} (parseX : String → Option Rat)
    (parseY : String → Option τ) (target_index : Nat) :
    Nat → List String → Except ErrorKind (List Rat × List τ)
  | _, [] => .ok ([], [])
  | index, feature :: rest =>
      if index = target_index then
        match parseY feature with
        | none => .error .InvalidData
        | some y =>
            match parseCells parseX parseY target_index (index + 1) rest with
            | .error k => .error k
            | .ok (fs, ys) => .ok (fs, y :: ys)
      else
        match parseX feature with
        | none => .error .InvalidData
        | some x =>
            match parseCells parseX parseY target_index (index + 1) rest with
            | .error k => .error k
            | .ok (fs, ys) => .ok (x :: fs, ys)

/-- The record loop of `Dataset::from_csv`, accumulating feature rows and
target values in order. -/
def parseRecords {τ : Type} (parseX : String → Option Rat)
    (parseY : String → Option τ) (target_index : Nat) :
    List (List String) → Except ErrorKind (List (List Rat) × List τ)
  | [] => .ok ([], [])
  | record :: rs =>
      match parseCells parseX parseY target_index 0 record with
      | .error k => .error k
      | .ok (features, ys) =>
          match parseRecords parseX parseY target_index rs with
          | .error k => .error k
          | .ok (rows, targets) => .ok (features :: rows, ys ++ targets)

/-- `Dataset::from_csv`, shallowly embedded over the CSV reader's header
row and string records; `parseX` models `X::from_str`, `parseY` models
`Y::from_str`.  The column count is read from `data_rows[0]` — a panic
when there are no data rows. -/
def Dataset.from_csv {τ : Type} (parseX : String → Option Rat)
    (parseY : String → Option τ) (headers : List String)
    (records : List (List String)) (target_column : String) :
    Outcome (Dataset (Matrix Rat) (List τ)) :=
  match position target_column headers with
  | none => .error .InvalidData
  | some target_index =>
      match parseRecords parseX parseY target_index records with
      | .error k => .error k
      | .ok (data_rows, target_values) =>
          match data_rows with
          | [] => .panics
          | r0 :: rest =>
              .ok { data := { rows := (r0 :: rest).length, cols := r0.length,
                              data := (r0 :: rest).flatten },
                    target := target_values,
                    data_columns := headers.filter (fun h => h ≠ target_column),
                    target_column := target_column }

/-- The numeric column indices of `MixedDataset::from_csv`: positions of
headers whose name is in the caller-supplied `numeric_columns` list. -/
def numericIdxs (headers : List String) (numeric_columns : List String) :
    List Nat :=
  headers.enum.filterMap
    (fun p => if p.2 ∈ numeric_columns then some p.1 else none)

/-- The `data_value` computation at the top of the cell loop of
`MixedDataset::from_csv`: a cell in a numeric-listed column must parse as
`f64` (else `InvalidData`), any other cell becomes `Categorical`. -/
def mixedDataValueOf (parseF : String → Option Rat)
    (numeric_idxs : List Nat) (index : Nat) (feature : String) :
    Except ErrorKind MixedDataValue :=
  if index ∈ numeric_idxs then
    match parseF feature with
    | some x => .ok (.Numeric x)
    | none => .error .InvalidData
  else .ok (.Categorical feature)

/-- The per-record cell loop of `MixedDataset::from_csv`: the mixed data
value is computed first (failing with `InvalidData` when a
numeric-listed cell does not parse as `f64`), and only then is the cell
routed to the target vector (via the label parser) or the feature row. -/
def mixedCells {τ : Type} (parseF : String → Option Rat)
    (parseY : String → Option τ) (target_index : Nat)
    (numeric_idxs : List Nat) :
    Nat → List String → Except ErrorKind (List MixedDataValue × List τ)
  | _, [] => .ok ([], [])
  | index, feature :: rest =>
      match mixedDataValueOf parseF numeric_idxs index feature with
      | .error k => .error k
      | .ok v =>
          if index = target_index then
            match parseY feature with
            | none => .error .InvalidData
            | some y =>
                match mixedCells parseF parseY target_index numeric_idxs
                    (index + 1) rest with
                | .error k => .error k
                | .ok (fs, ys) => .ok (fs, y :: ys)
          else
            match mixedCells parseF parseY target_index numeric_idxs
                (index + 1) rest with
            | .error k => .error k
            | .ok (fs, ys) => .ok (v :: fs, ys)

/-- The record loop of `MixedDataset::from_csv`. -/
def mixedRecords {τ : Type} (parseF : String → Option Rat)
    (parseY : String → Option τ) (target_index : Nat)
    (numeric_idxs : List Nat) :
    List (List String) →
      Except ErrorKind (List (List MixedDataValue) × List τ)
  | [] => .ok ([], [])
  | record :: rs =>
      match mixedCells parseF parseY target_index numeric_idxs 0 record with
      | .error k => .error k
      | .ok (features, ys) =>
          match mixedRecords parseF parseY target_index numeric_idxs rs with
          | .error k => .error k
          | .ok (rows, targets) => .ok (features :: rows, ys ++ targets)

/-- `MixedDataset::from_csv`, shallowly embedded; `parseF` models
`str::parse::<f64>`, `parseY` models `Y::from_str`. -/
def MixedDataset.from_csv {τ : Type} (parseF : String → Option Rat)
    (parseY : String → Option τ) (headers : List String)
    (records : List (List String)) (target_column : String)
    (numeric_columns : List String) :
    Except ErrorKind (MixedDataset (List τ)) :=
  match position target_column headers with
  | none => .error .InvalidData
  | some target_index =>
      match mixedRecords parseF parseY target_index
          (numericIdxs headers numeric_columns) records with
      | .error k => .error k
      | .ok (data_rows, target_values) =>
          .ok { data := data_rows, target := target_values,
                data_columns := headers.filter (fun h => h ≠ target_column),
                target_column := target_column }

/-! ## Concrete values used by witnesses -/

/-- A small concrete numeric-cell parse function (models `f64::from_str`
on the strings the witnesses use). -/
def parseXw : String → Option Rat :=
  fun s => if s = "1" then some 1 else if s = "2" then some 2 else none

/-- A concrete label parse function for `String` labels (never fails,
like `String::from_str`). -/
def parseYw : String → Option String := fun s => some s

/-! ## C3 — `Dataset::from_csv` with zero data rows -/

/-- C3: the spec requires `Dataset::from_csv` to fail with `InvalidData`
when the header contains the target column but there are no data rows.
The code instead evaluates `data_rows[0]`, an out-of-bounds index, i.e.
it panics: on the header `["a", "t"]` with target `"t"` and an empty
record list the embedded function yields the panic outcome, not an
`InvalidData` error. -/
theorem spec_C3_empty_rows_panics :
    Dataset.from_csv parseXw parseYw ["a", "t"] [] "t" = .panics ∧
    Dataset.from_csv parseXw parseYw ["a", "t"] [] "t" ≠
      .error ErrorKind.InvalidData := by
  constructor
  · rfl
  · intro h
    simp [Dataset.from_csv, position, parseRecords] at h

/-! ## C8 — column-order preservation -/

/-- C8: on any successful ingestion (both the homogeneous and the mixed
path), `data_columns` is the header row with the target column name
removed, order-preserving. -/
theorem spec_C8_data_columns_filter {τ : Type} (parseX : String → Option Rat)
    (parseY : String → Option τ) (headers : List String)
    (records : List (List String)) (target_column : String) :
    (∀ d, Dataset.from_csv parseX parseY headers records target_column = .ok d →
      d.data_columns = headers.filter (fun h => h ≠ target_column)) ∧
    (∀ (numeric_columns : List String) md,
      MixedDataset.from_csv parseX parseY headers records target_column
        numeric_columns = .ok md →
      md.data_columns = headers.filter (fun h => h ≠ target_column)) := by
  constructor
  · intro d h
    unfold Dataset.from_csv at h
    cases hp : position target_column headers with
    | none => simp [hp] at h
    | some ti =>
      simp only [hp] at h
      cases hr : parseRecords parseX parseY ti records with
      | error k => simp [hr] at h
      | ok pr =>
        obtain ⟨rows, targets⟩ := pr
        simp only [hr] at h
        cases rows with
        | nil => simp at h
        | cons r0 rest =>
          simp only [Outcome.ok.injEq] at h
          rw [← h]
  · intro numeric_columns md h
    unfold MixedDataset.from_csv at h
    cases hp : position target_column headers with
    | none => simp [hp] at h
    | some ti =>
      simp only [hp] at h
      cases hr : mixedRecords parseX parseY ti
          (numericIdxs headers numeric_columns) records with
      | error k => simp [hr] at h
      | ok pr =>
        obtain ⟨rows, targets⟩ := pr
        simp only [hr] at h
        simp only [Except.ok.injEq] at h
        rw [← h]

/-- Concrete homogeneous dataset produced by `from_csv` in the C8
witness. -/
def csvOutW : Dataset (Matrix Rat) (List String) :=
  { data := { rows := 1, cols := 1, data := [1] }
    target := ["x"]
    data_columns := ["a"]
    target_column := "t" }

/-- Concrete mixed dataset produced by `from_csv` in the C8 witness. -/
def csvMixedOutW : MixedDataset (List String) :=
  { data := [[MixedDataValue.Numeric 1]]
    target := ["x"]
    data_columns := ["a"]
    target_column := "t" }

/-- Witness for C8 at a concrete one-row CSV. -/
theorem spec_C8_witness :
    csvOutW.data_columns = (["a", "t"].filter (fun h => h ≠ "t")) ∧
    csvMixedOutW.data_columns = (["a", "t"].filter (fun h => h ≠ "t")) := by
  constructor
  · exact (spec_C8_data_columns_filter parseXw parseYw ["a", "t"] [["1", "x"]]
      "t").1 csvOutW (by rfl)
  · exact (spec_C8_data_columns_filter parseXw parseYw ["a", "t"] [["1", "x"]]
      "t").2 ["a"] csvMixedOutW (by rfl)

/-! ## C4 — label encoder fit assigns first-seen codes -/

/-- Modelled from the spec's words for comparison with the code: the
distinct labels of `l`, each kept at its first occurrence, in order. -/
def firstSeenSpec {K : Type} [DecidableEq K] (l : List K) : List K :=
  l.foldl (fun acc v => if v ∈ acc then acc else acc ++ [v]) []

/-- Pair a list of labels with consecutive codes `k, k+1, …`. -/
def withCodes {K : Type} (k : Nat) : List K → List (K × Rat)
  | [] => []
  | v :: vs => (v, (k : Rat)) :: withCodes (k + 1) vs

theorem alookup_withCodes_isSome {K : Type} [DecidableEq K] :
    ∀ (fs : List K) (k : Nat) (v : K),
      (alookup (withCodes k fs) v).isSome ↔ v ∈ fs := by
  intro fs
  induction fs with
  | nil => simp [withCodes]
  | cons x xs ih =>
    intro k v
    by_cases hx : x = v
    · simp [withCodes, hx]
    · simp only [withCodes, alookup_cons, hx, if_false, ih, List.mem_cons]
      constructor
      · exact Or.inr
      · rintro (h | h)
        · exact absurd h.symm hx
        · exact h

theorem withCodes_append {K : Type} :
    ∀ (fs : List K) (k : Nat) (v : K),
      withCodes k (fs ++ [v]) = withCodes k fs ++ [(v, ((k + fs.length : Nat) : Rat))] := by
  intro fs
  induction fs with
  | nil => simp [withCodes]
  | cons x xs ih =>
    intro k v
    have h1 : withCodes k ((x :: xs) ++ [v]) =
        (x, ((k : Nat) : Rat)) :: withCodes (k + 1) (xs ++ [v]) := rfl
    rw [h1, ih (k + 1) v]
    have h2 : k + 1 + xs.length = k + (x :: xs).length := by
      simp only [List.length_cons]
      omega
    rw [h2]
    rfl

theorem labelFit_invariant {K : Type} [DecidableEq K] :
    ∀ (l : List K) (fs : List K),
      l.foldl labelFitStep (withCodes 0 fs, ((fs.length : Nat) : Rat)) =
        (withCodes 0 (l.foldl (fun acc v => if v ∈ acc then acc else acc ++ [v]) fs),
         (((l.foldl (fun acc v => if v ∈ acc then acc else acc ++ [v]) fs).length : Nat) : Rat)) := by
  intro l
  induction l with
  | nil => intro fs; rfl
  | cons v vs ih =>
    intro fs
    by_cases hv : v ∈ fs
    · have hsome : (alookup (withCodes 0 fs) v).isSome = true :=
        (alookup_withCodes_isSome fs 0 v).2 hv
      have hstep : labelFitStep (withCodes 0 fs, ((fs.length : Nat) : Rat)) v =
          (withCodes 0 fs, ((fs.length : Nat) : Rat)) := by
        unfold labelFitStep
        rw [hsome]
        simp
      simp only [List.foldl_cons, hstep, hv, ite_true]
      exact ih fs
    · have hnone : (alookup (withCodes 0 fs) v).isSome = false := by
        rw [Bool.eq_false_iff]
        intro hs
        exact hv ((alookup_withCodes_isSome fs 0 v).1 hs)
      have hstep : labelFitStep (withCodes 0 fs, ((fs.length : Nat) : Rat)) v =
          (withCodes 0 (fs ++ [v]), (((fs ++ [v]).length : Nat) : Rat)) := by
        unfold labelFitStep
        rw [hnone]
        simp only [Bool.false_eq_true, if_false, withCodes_append, Nat.zero_add,
          List.length_append, List.length_singleton, Nat.cast_add, Nat.cast_one]
      simp only [List.foldl_cons, hstep, hv, ite_false]
      exact ih (fs ++ [v])

/-- The fitted label map is exactly the first-seen distinct labels paired
with codes `0, 1, 2, …`. -/
theorem labelFitMap_eq {K : Type} [DecidableEq K] (l : List K) :
    labelFitMap l = withCodes 0 (firstSeenSpec l) := by
  unfold labelFitMap firstSeenSpec
  have h := labelFit_invariant l []
  simp only [withCodes, List.length_nil, Nat.cast_zero] at h
  rw [h]

/-- C4: `LabelEncoderFitter::fit` always succeeds and builds the
label→code map that assigns `0, 1, 2, …` to the distinct labels in
first-seen insertion order; on `["b","a","b","c"]` it yields
`{b:0, a:1, c:2}`, and fitting the same sequence twice yields identical
code assignments. -/
theorem spec_C4_labelencoder_fit {K : Type} [DecidableEq K] (l : List K) :
    LabelEncoderFitter.fitOn l =
      .ok { fitter := { label_map := withCodes 0 (firstSeenSpec l), fit := .Fit } } ∧
    labelFitMap ["b", "a", "b", "c"] = [("b", 0), ("a", 1), ("c", 2)] ∧
    LabelEncoderFitter.fitOn l = LabelEncoderFitter.fitOn l := by
  refine ⟨?_, ?_, rfl⟩
  · unfold LabelEncoderFitter.fitOn
    rw [labelFitMap_eq]
  · rw [labelFitMap_eq]
    have h1 : firstSeenSpec ["b", "a", "b", "c"] = ["b", "a", "c"] := by decide
    rw [h1]
    simp [withCodes]

/-! ## C6 — label encoder transform -/

theorem lookupCodes_all_present {K : Type} [DecidableEq K]
    (m : List (K × Rat)) :
    ∀ (l : List K), (∀ v ∈ l, (alookup m v).isSome) →
      lookupCodes m l = .ok (l.map (fun v => (alookup m v).getD 0)) := by
  intro l
  induction l with
  | nil => intro _; rfl
  | cons v vs ih =>
    intro h
    have hv := h v (List.mem_cons_self v vs)
    obtain ⟨c, hc⟩ := Option.isSome_iff_exists.1 hv
    have hrest := ih (fun w hw => h w (List.mem_cons_of_mem v hw))
    simp [lookupCodes, hc, hrest]

theorem lookupCodes_missing {K : Type} [DecidableEq K] (m : List (K × Rat)) :
    ∀ (l : List K), (∃ v ∈ l, alookup m v = none) →
      lookupCodes m l = .error .InvalidState := by
  intro l
  induction l with
  | nil => intro h; obtain ⟨v, hv, _⟩ := h; simp at hv
  | cons v vs ih =>
    intro h
    obtain ⟨w, hw, hwn⟩ := h
    rcases List.mem_cons.1 hw with hwv | hwvs
    · subst hwv
      simp [lookupCodes, hwn]
    · cases hv : alookup m v with
      | none => simp [lookupCodes, hv]
      | some c => simp [lookupCodes, hv, ih ⟨w, hwvs, hwn⟩]

/-- C6: `LabelEncoder::transform` returns the same-length, same-order
code sequence when every element is in the fitted mapping, and fails
with `InvalidState` when any element is absent. -/
theorem spec_C6_labelencoder_transform {K : Type} [DecidableEq K]
    (e : LabelEncoder K) (l : List K) :
    ((∀ v ∈ l, (alookup e.fitter.label_map v).isSome) →
      e.transform l = .ok (l.map (fun v => (alookup e.fitter.label_map v).getD 0)) ∧
      (l.map (fun v => (alookup e.fitter.label_map v).getD 0)).length = l.length) ∧
    ((∃ v ∈ l, alookup e.fitter.label_map v = none) →
      e.transform l = .error .InvalidState) := by
  constructor
  · intro h
    exact ⟨lookupCodes_all_present e.fitter.label_map l h, by simp⟩
  · intro h
    exact lookupCodes_missing e.fitter.label_map l h

/-- A concrete fitted label encoder for the C6 witness. -/
def leW : LabelEncoder String :=
  { fitter := { label_map := [("b", 0), ("a", 1), ("c", 2)], fit := .Fit } }

/-- Witness for C6: all-present labels transform to their codes, an
unseen label yields `InvalidState`. -/
theorem spec_C6_witness :
    (leW.transform ["b", "a", "b", "c"] =
        .ok (["b", "a", "b", "c"].map
          (fun v => (alookup leW.fitter.label_map v).getD 0)) ∧
      (["b", "a", "b", "c"].map
        (fun v => (alookup leW.fitter.label_map v).getD 0)).length =
        (["b", "a", "b", "c"] : List String).length) ∧
    leW.transform ["z"] = .error .InvalidState := by
  constructor
  · exact (spec_C6_labelencoder_transform leW ["b", "a", "b", "c"]).1 (by decide)
  · exact (spec_C6_labelencoder_transform leW ["z"]).2 ⟨"z", by simp, by rfl⟩

/-! ## C7 — min-max transform frame effect -/

/-- C7: `MinMaxScaler::transform` fails with `InvalidState` exactly on a
feature-count mismatch; otherwise it returns a new dataset whose target,
column names and target column are the input's, and whose feature matrix
has the input's dimensions (using the `Dataset` invariant that the
matrix column count equals the number of data columns). -/
theorem spec_C7_minmax_frame {Y : Type} (s : MinMaxScaler)
    (input : Dataset (Matrix Rat) Y) :
    (s.fitter.num_featues ≠ input.data_columns.length →
      s.transform input = .error .InvalidState) ∧
    (s.fitter.num_featues = input.data_columns.length →
      input.data.cols = input.data_columns.length →
      ∃ out, s.transform input = .ok out ∧
        out.target = input.target ∧
        out.data_columns = input.data_columns ∧
        out.target_column = input.target_column ∧
        out.data.rows = input.data.rows ∧
        out.data.cols = input.data.cols) := by
  constructor
  · intro h
    unfold MinMaxScaler.transform
    rw [if_pos h]
  · intro h hinv
    unfold MinMaxScaler.transform
    rw [if_neg (not_not_intro h)]
    refine ⟨_, rfl, rfl, rfl, rfl, rfl, ?_⟩
    show s.fitter.num_featues = input.data.cols
    rw [h, hinv]

/-- A concrete fitted scaler (the result of fitting the default min-max
fitter on `dsW`). -/
def mmW : MinMaxScaler :=
  { fitter :=
    { num_featues := 1
      scaled_min := 0
      scaled_max := 1
      min_values := [1]
      max_values := [3]
      scale_factors := [1/2]
      constant_factors := [-(1/2)]
      fit := .Fit } }

/-- A concrete 2×1 numeric dataset. -/
def dsW : Dataset (Matrix Rat) (List String) :=
  { data := { rows := 2, cols := 1, data := [1, 3] }
    target := ["x", "y"]
    data_columns := ["a"]
    target_column := "t" }

/-- A concrete dataset with a different feature count. -/
def dsBadW : Dataset (Matrix Rat) (List String) :=
  { data := { rows := 1, cols := 2, data := [5, 6] }
    target := ["x"]
    data_columns := ["c", "d"]
    target_column := "t" }

/-- Witness for C7: mismatch yields `InvalidState`, match yields a
dataset with identical metadata and dimensions. -/
theorem spec_C7_witness :
    mmW.transform dsBadW = .error .InvalidState ∧
    (∃ out, mmW.transform dsW = .ok out ∧
      out.target = dsW.target ∧
      out.data_columns = dsW.data_columns ∧
      out.target_column = dsW.target_column ∧
      out.data.rows = dsW.data.rows ∧
      out.data.cols = dsW.data.cols) := by
  constructor
  · exact (spec_C7_minmax_frame mmW dsBadW).1 (by decide)
  · exact (spec_C7_minmax_frame mmW dsW).2 (by decide) (by decide)

/-! ## C2 — min-max boundary law -/

theorem flatten_getElem_uniform {α : Type} :
    ∀ (L : List (List α)) (c i j : Nat), (∀ l ∈ L, l.length = c) → j < c →
      L.flatten[i * c + j]? = L[i]?.bind (fun l => l[j]?) := by
  intro L
  induction L with
  | nil => intro c i j _ _; simp
  | cons l Ls ih =>
    intro c i j hlen hj
    have hl : l.length = c := hlen l (List.mem_cons_self l Ls)
    cases i with
    | zero =>
      rw [List.flatten_cons, Nat.zero_mul, Nat.zero_add,
        List.getElem?_append_left (by omega)]
      simp
    | succ i =>
      rw [List.flatten_cons]
      have hge : l.length ≤ (i + 1) * c + j := by
        rw [hl, Nat.succ_mul]; omega
      rw [List.getElem?_append_right hge]
      have harith : (i + 1) * c + j - l.length = i * c + j := by
        rw [hl, Nat.succ_mul]; omega
      rw [harith, ih c i j (fun x hx => hlen x (List.mem_cons_of_mem l hx)) hj]
      simp

theorem rowList_getElem {α : Type} (m : Matrix α) (i : Nat)
    (hi : i < m.rows) :
    m.rowList[i]? = some ((m.data.drop (i * m.cols)).take m.cols) := by
  unfold Matrix.rowList
  rw [List.getElem?_map, List.getElem?_range hi]
  rfl

theorem rowList_mem_length {α : Type} (m : Matrix α)
    (hlen : m.data.length = m.rows * m.cols) :
    ∀ l ∈ m.rowList, l.length = m.cols := by
  intro l hl
  unfold Matrix.rowList at hl
  obtain ⟨i, hi, rfl⟩ := List.mem_map.1 hl
  rw [List.mem_range] at hi
  rw [List.length_take, List.length_drop, hlen]
  have hge : m.cols ≤ m.rows * m.cols - i * m.cols := by
    have h1 : (i + 1) * m.cols ≤ m.rows * m.cols :=
      Nat.mul_le_mul_right _ hi
    rw [Nat.succ_mul] at h1
    omega
  exact min_eq_left hge

theorem scaleRow_getElem (sf cf : List Rat) (row : List Rat) (j : Nat)
    (v : Rat) (hv : row[j]? = some v) :
    (scaleRow sf cf row)[j]? = some (v * sf.getD j 0 + cf.getD j 0) := by
  unfold scaleRow
  rw [List.getElem?_map, List.getElem?_enum, hv]
  rfl

theorem scaleRow_length (sf cf : List Rat) (row : List Rat) :
    (scaleRow sf cf row).length = row.length := by
  simp [scaleRow, List.enum_length]

theorem range_map_getD {α : Type} (f : Nat → α) (d : α) (n j : Nat)
    (hj : j < n) : ((List.range n).map f).getD j d = f j := by
  rw [List.getD_eq_getElem?_getD, List.getElem?_map, List.getElem?_range hj]
  rfl

/-- C2: applying the fitted min-max transform to the dataset it was fit
on maps a cell equal to the fitted per-feature `min` to exactly
`scaled_min` and a cell equal to the fitted per-feature `max` to exactly
`scaled_max` (exact rational arithmetic; the degenerate `min = max`
feature, whose `scale_factor` divides by zero, is excluded). -/
theorem spec_C2_minmax_boundary {Y : Type} (f : MinMaxFitter)
    (d : Dataset (Matrix Rat) Y) (s : MinMaxScaler)
    (out : Dataset (Matrix Rat) Y) (i j : Nat) (v : Rat)
    (hfit : f.fitOn d = .ok s)
    (htr : s.transform d = .ok out)
    (hcols : d.data.cols = d.data_columns.length)
    (hdlen : d.data.data.length = d.data.rows * d.data.cols)
    (hi : i < d.data.rows) (hj : j < d.data.cols)
    (hcell : d.data.data[i * d.data.cols + j]? = some v)
    (hne : s.fitter.min_values.getD j 0 ≠ s.fitter.max_values.getD j 0) :
    (v = s.fitter.min_values.getD j 0 →
      out.data.data[i * d.data.cols + j]? = some f.scaled_min) ∧
    (v = s.fitter.max_values.getD j 0 →
      out.data.data[i * d.data.cols + j]? = some f.scaled_max) := by
  unfold MinMaxFitter.fitOn at hfit
  simp only [Except.ok.injEq] at hfit
  subst hfit
  unfold MinMaxScaler.transform at htr
  rw [if_neg (not_not_intro rfl)] at htr
  simp only [Except.ok.injEq] at htr
  subst htr
  -- the fitted coefficient lists
  set mm := minmaxValues d.data_columns.length d.data.rowList with hmm
  set sfl := (List.range d.data_columns.length).map
    (fun i => (f.scaled_max - f.scaled_min) / (mm.2.getD i 0 - mm.1.getD i 0))
    with hsfl
  set cfl := (List.range d.data_columns.length).map
    (fun i => f.scaled_min - mm.1.getD i 0 *
      ((f.scaled_max - f.scaled_min) / (mm.2.getD i 0 - mm.1.getD i 0)))
    with hcfl
  have hj' : j < d.data_columns.length := hcols ▸ hj
  -- locate the transformed cell
  have hrowlen : ∀ l ∈ d.data.rowList.map (scaleRow sfl cfl),
      l.length = d.data.cols := by
    intro l hl
    obtain ⟨r, hr, rfl⟩ := List.mem_map.1 hl
    rw [scaleRow_length]
    exact rowList_mem_length d.data hdlen r hr
  have hflat := flatten_getElem_uniform (d.data.rowList.map (scaleRow sfl cfl))
    d.data.cols i j hrowlen hj
  have hrowi := rowList_getElem d.data i hi
  have hrowv : ((d.data.data.drop (i * d.data.cols)).take d.data.cols)[j]? =
      some v := by
    rw [List.getElem?_take]
    rw [if_pos hj, List.getElem?_drop]
    exact hcell
  have hcellout : ((d.data.rowList.map (scaleRow sfl cfl)).flatten)[i * d.data.cols + j]? =
      some (v * sfl.getD j 0 + cfl.getD j 0) := by
    rw [hflat, List.getElem?_map, hrowi]
    simp only [Option.map_some', Option.some_bind]
    exact scaleRow_getElem sfl cfl _ j v hrowv
  have hsf : sfl.getD j 0 =
      (f.scaled_max - f.scaled_min) / (mm.2.getD j 0 - mm.1.getD j 0) := by
    rw [hsfl, range_map_getD _ _ _ _ hj']
  have hcf : cfl.getD j 0 = f.scaled_min - mm.1.getD j 0 *
      ((f.scaled_max - f.scaled_min) / (mm.2.getD j 0 - mm.1.getD j 0)) := by
    rw [hcfl, range_map_getD _ _ _ _ hj']
  constructor
  · intro hv
    rw [hcellout, hsf, hcf]
    congr 1
    rw [hv]
    ring
  · intro hv
    rw [hcellout, hsf, hcf]
    congr 1
    rw [hv]
    have hsub : mm.2.getD j 0 - mm.1.getD j 0 ≠ 0 :=
      sub_ne_zero_of_ne (Ne.symm hne)
    have hcancel := div_mul_cancel₀ (f.scaled_max - f.scaled_min) hsub
    linear_combination hcancel

/-- The dataset produced by `mmW.transform dsW`. -/
def outW : Dataset (Matrix Rat) (List String) :=
  { data := { rows := 2, cols := 1, data := [0, 1] }
    target := ["x", "y"]
    data_columns := ["a"]
    target_column := "t" }

theorem mmW_fit : MinMaxFitter.mkDefault.fitOn dsW = .ok mmW := by
  norm_num [MinMaxFitter.fitOn, MinMaxFitter.mkDefault, MinMaxFitter.new,
    minmaxValues, minmaxRow, minmaxStep, Matrix.rowList, dsW, mmW,
    f64MAX, f64MIN, List.range_succ]

theorem mmW_transform : mmW.transform dsW = .ok outW := by
  norm_num [MinMaxScaler.transform, scaleRow, Matrix.rowList, dsW, mmW,
    outW, List.range_succ]

/-- Witness for C2 on a concrete 2×1 dataset with feature values 1 and
3: the min row maps to `scaled_min = 0`, the max row to
`scaled_max = 1`. -/
theorem spec_C2_witness :
    outW.data.data[0 * dsW.data.cols + 0]? = some MinMaxFitter.mkDefault.scaled_min ∧
    outW.data.data[1 * dsW.data.cols + 0]? = some MinMaxFitter.mkDefault.scaled_max := by
  constructor
  · exact (spec_C2_minmax_boundary MinMaxFitter.mkDefault dsW mmW outW 0 0 1
      mmW_fit mmW_transform rfl rfl (by decide) (by decide) (by rfl)
      (by norm_num [mmW])).1 (by norm_num [mmW])
  · exact (spec_C2_minmax_boundary MinMaxFitter.mkDefault dsW mmW outW 1 0 3
      mmW_fit mmW_transform rfl rfl (by decide) (by decide) (by rfl)
      (by norm_num [mmW])).2 (by norm_num [mmW])

/-! ## One-hot fit invariants -/

/-- The index components of a column map are `k, k+1, k+2, …` in order. -/
def IdxFrom : Nat → List (String × Nat) → Prop
  | _, [] => True
  | k, p :: ps => p.2 = k ∧ IdxFrom (k + 1) ps

theorem idxFrom_append :
    ∀ (m : List (String × Nat)) (k : Nat) (v : String),
      IdxFrom k m → IdxFrom k (m ++ [(v, k + m.length)]) := by
  intro m
  induction m with
  | nil =>
    intro k v _
    exact ⟨rfl, trivial⟩
  | cons p ps ih =>
    intro k v h
    refine ⟨h.1, ?_⟩
    have hstep := ih (k + 1) v h.2
    have harith : k + 1 + ps.length = k + (ps.length + 1) := by omega
    rw [harith] at hstep
    exact hstep

theorem colMapStep_idxFrom (ci : Nat) (map : List (String × Nat))
    (row : List MixedDataValue) (h : IdxFrom 0 map) :
    IdxFrom 0 (colMapStep ci map row) := by
  unfold colMapStep
  cases row.getD ci (.Numeric 0) with
  | Numeric _ => exact h
  | Categorical value =>
    by_cases hv : (alookup map value).isSome
    · simp only [hv, if_true]
      exact h
    · simp only [hv, if_false, Bool.false_eq_true]
      have := idxFrom_append map 0 value h
      simpa using this

theorem buildColMap_idxFrom (ci : Nat) :
    ∀ (rows : List (List MixedDataValue)) (m : List (String × Nat)),
      IdxFrom 0 m → IdxFrom 0 (rows.foldl (colMapStep ci) m) := by
  intro rows
  induction rows with
  | nil => intro m h; exact h
  | cons r rs ih =>
    intro m h
    exact ih (colMapStep ci m r) (colMapStep_idxFrom ci m r h)

theorem fitCatMapGo_mem (rows : List (List MixedDataValue)) :
    ∀ (cns : List String) (ci : Nat)
      (acc : List (String × List (String × Nat))),
      (∀ q ∈ acc, IdxFrom 0 q.2 ∧ q.2 ≠ []) →
      ∀ q ∈ fitCatMapGo rows ci cns acc, IdxFrom 0 q.2 ∧ q.2 ≠ [] := by
  intro cns
  induction cns with
  | nil => intro ci acc hacc q hq; exact hacc q hq
  | cons cn cns ih =>
    intro ci acc hacc q hq
    simp only [fitCatMapGo] at hq
    refine ih (ci + 1) _ ?_ q hq
    intro q' hq'
    by_cases hm : buildColMap ci rows = []
    · rw [if_pos hm] at hq'
      exact hacc q' hq'
    · rw [if_neg hm] at hq'
      rcases List.mem_cons.1 hq' with h | h
      · subst h
        exact ⟨buildColMap_idxFrom ci rows [] trivial, hm⟩
      · exact hacc q' h

/-- Every inner map of a fit-produced category map is non-empty and has
consecutive indices `0, 1, 2, …`. -/
theorem oheFit_lookup {Y : Type} (d : MixedDataset Y) (cn : String)
    (m : List (String × Nat))
    (h : alookup (oheFitCategoryMap d) cn = some m) :
    IdxFrom 0 m ∧ m ≠ [] := by
  have hmem := alookup_mem _ cn m h
  exact fitCatMapGo_mem d.data d.data_columns 0 []
    (by intro q hq; simp at hq) (cn, m) hmem

theorem alookup_idxFrom_lt :
    ∀ (m : List (String × Nat)) (k : Nat) (v : String) (idx : Nat),
      IdxFrom k m → alookup m v = some idx →
      k ≤ idx ∧ idx < k + m.length := by
  intro m
  induction m with
  | nil => intro k v idx _ h; simp at h
  | cons p ps ih =>
    intro k v idx hidx h
    by_cases hp : p.1 = v
    · simp only [alookup_cons, hp, if_true] at h
      have hpv : p.2 = idx := Option.some.inj h
      have h1 : idx = k := by rw [← hpv]; exact hidx.1
      simp only [List.length_cons]
      omega
    · simp only [alookup_cons, hp, if_false] at h
      have := ih (k + 1) v idx hidx.2 h
      simp only [List.length_cons]
      omega

theorem insertByIdx_length (p : String × Nat) :
    ∀ (l : List (String × Nat)), (insertByIdx p l).length = l.length + 1 := by
  intro l
  induction l with
  | nil => rfl
  | cons q qs ih =>
    unfold insertByIdx
    by_cases h : p.2 < q.2
    · simp [h]
    · simp [h, ih]

theorem sortByIdx_length :
    ∀ (l : List (String × Nat)), (sortByIdx l).length = l.length := by
  intro l
  induction l with
  | nil => rfl
  | cons p ps ih =>
    show (insertByIdx p (sortByIdx ps)).length = ps.length + 1
    rw [insertByIdx_length, ih]

/-- The transform-time `sort_by_key` is the identity on fit-produced
maps: their indices are already in increasing insertion order. -/
theorem sortByIdx_idxFrom_eq :
    ∀ (m : List (String × Nat)) (k : Nat), IdxFrom k m → sortByIdx m = m := by
  intro m
  induction m with
  | nil => intro k _; rfl
  | cons p ps ih =>
    intro k h
    show insertByIdx p (sortByIdx ps) = p :: ps
    rw [ih (k + 1) h.2]
    cases ps with
    | nil => rfl
    | cons q qs =>
      have hlt : p.2 < q.2 := by
        rw [h.1, h.2.1]
        omega
      unfold insertByIdx
      rw [if_pos hlt]

theorem sum_replicate_zero_set_one :
    ∀ (n idx : Nat), idx < n →
      ((List.replicate n (0 : Rat)).set idx 1).sum = 1 := by
  intro n
  induction n with
  | zero => intro idx h; exact absurd h (Nat.not_lt_zero idx)
  | succ n ih =>
    intro idx h
    cases idx with
    | zero =>
      simp [List.replicate_succ, List.sum_replicate]
    | succ idx =>
      simp only [List.replicate_succ, List.set_cons_succ, List.sum_cons,
        ih idx (by omega)]
      ring

/-! ## C1 — one-hot indicator blocks -/

/-- C1: for a fitted one-hot encoder, a categorical cell of a column
present in the category map is encoded as an indicator block of the
map's size — all zeros with a single `1.0` at the fitted index (summing
to `1.0`) for a seen category, all zeros (summing to `0.0`, no error)
for an unseen category — and a numeric cell passes through as its scalar
value. -/
theorem spec_C1_onehot_cell_encoding {Y : Type} (d : MixedDataset Y)
    (e : OneHotEncoder Y) (cn : String) (m : List (String × Nat))
    (hfit : OneHotEncoderFitter.fitOn d = .ok e)
    (hm : alookup e.fitter.category_map cn = some m) :
    (∀ v idx, alookup m v = some idx →
      encodeCell e.fitter.category_map cn (.Categorical v) =
        (List.replicate m.length (0 : Rat)).set idx 1 ∧
      ((List.replicate m.length (0 : Rat)).set idx 1).length = m.length ∧
      ((List.replicate m.length (0 : Rat)).set idx 1).sum = 1) ∧
    (∀ v, alookup m v = none →
      encodeCell e.fitter.category_map cn (.Categorical v) =
        List.replicate m.length (0 : Rat) ∧
      (List.replicate m.length (0 : Rat)).sum = 0) ∧
    (∀ x, encodeCell e.fitter.category_map cn (.Numeric x) = [x]) := by
  unfold OneHotEncoderFitter.fitOn at hfit
  simp only [Except.ok.injEq] at hfit
  subst hfit
  have hinv := oheFit_lookup d cn m hm
  refine ⟨?_, ?_, ?_⟩
  · intro v idx hv
    have hidx := (alookup_idxFrom_lt m 0 v idx hinv.1 hv).2
    refine ⟨?_, by simp, sum_replicate_zero_set_one m.length idx (by omega)⟩
    simp only [encodeCell, hm, hv]
  · intro v hv
    refine ⟨?_, by simp [List.sum_replicate]⟩
    simp only [encodeCell, hm, hv]
  · intro x
    rfl

/-- A concrete mixed dataset: one categorical column (values `r`, `g`)
and one numeric column. -/
def mdW : MixedDataset (List String) :=
  { data := [[MixedDataValue.Categorical "r", MixedDataValue.Numeric 5],
             [MixedDataValue.Categorical "g", MixedDataValue.Numeric 6],
             [MixedDataValue.Categorical "r", MixedDataValue.Numeric 7]]
    target := ["x", "y", "z"]
    data_columns := ["color", "size"]
    target_column := "t" }

/-- The encoder produced by fitting on `mdW`. -/
def oheW : OneHotEncoder (List String) :=
  { fitter := { category_map := [("color", [("r", 0), ("g", 1)])], fit := .Fit } }

/-- Witness for C1 on `mdW`: seen category `r` gives the block
`[1, 0]`, unseen `q` gives `[0, 0]`, a numeric cell passes through. -/
theorem spec_C1_witness :
    (encodeCell oheW.fitter.category_map "color" (.Categorical "r") =
        (List.replicate 2 (0 : Rat)).set 0 1 ∧
      ((List.replicate 2 (0 : Rat)).set 0 1).length = 2 ∧
      ((List.replicate 2 (0 : Rat)).set 0 1).sum = 1) ∧
    (encodeCell oheW.fitter.category_map "color" (.Categorical "q") =
        List.replicate 2 (0 : Rat) ∧
      (List.replicate 2 (0 : Rat)).sum = 0) ∧
    encodeCell oheW.fitter.category_map "color" (.Numeric 5) = [5] := by
  have h := spec_C1_onehot_cell_encoding mdW oheW "color" [("r", 0), ("g", 1)]
    rfl rfl
  exact ⟨h.1 "r" 0 rfl, h.2.1 "q" rfl, h.2.2 5⟩

/-! ## C5 — one-hot output columns -/

theorem oheNames_cons (cm : List (String × List (String × Nat)))
    (cn : String) (cols : List String) :
    oheNames cm (cn :: cols) = oheColNames cm cn ++ oheNames cm cols := by
  simp [oheNames]

/-- On a fit-produced category map, the output names replay
`data_columns` with each mapped column expanded in insertion (= index)
order. -/
theorem oheNames_eq_insertion (cm : List (String × List (String × Nat)))
    (hP : ∀ q ∈ cm, IdxFrom 0 q.2) :
    ∀ (cols : List String),
      oheNames cm cols = cols.flatMap (fun cn =>
        match alookup cm cn with
        | some m => m.map (fun p => cn ++ "_" ++ p.1)
        | none => [cn]) := by
  intro cols
  induction cols with
  | nil => rfl
  | cons cn cols ih =>
    rw [oheNames_cons, List.flatMap_cons, ih]
    congr 1
    unfold oheColNames
    cases hcn : alookup cm cn with
    | none => rfl
    | some m =>
      have hidx : IdxFrom 0 m := hP (cn, m) (alookup_mem _ cn m hcn)
      show (sortByIdx m).map (fun p => cn ++ "_" ++ p.1) =
        m.map (fun p => cn ++ "_" ++ p.1)
      rw [sortByIdx_idxFrom_eq m 0 hidx]

theorem oheNames_length (cm : List (String × List (String × Nat)))
    (hP : ∀ q ∈ cm, IdxFrom 0 q.2) :
    ∀ (cols : List String),
      (oheNames cm cols).length =
        (cols.filter (fun cn => (alookup cm cn).isNone)).length +
        ((cols.filterMap (fun cn => alookup cm cn)).map List.length).sum := by
  intro cols
  induction cols with
  | nil => rfl
  | cons cn cols ih =>
    rw [oheNames_cons, List.length_append, ih]
    cases hcn : alookup cm cn with
    | none =>
      have h1 : (oheColNames cm cn).length = 1 := by
        simp [oheColNames, hcn]
      rw [h1]
      simp only [List.filter_cons, List.filterMap_cons, hcn, Option.isNone_none]
      simp
      omega
    | some m =>
      have hidx : IdxFrom 0 m := hP (cn, m) (alookup_mem _ cn m hcn)
      have h1 : (oheColNames cm cn).length = m.length := by
        simp [oheColNames, hcn, sortByIdx_idxFrom_eq m 0 hidx]
      rw [h1]
      simp only [List.filter_cons, List.filterMap_cons, hcn, Option.isNone_some]
      simp
      omega

/-- With at least one input row, `OneHotEncoder::transform` succeeds and
its output's `data_columns` is `oheNames`. -/
theorem transform_ok_names {Y : Type} (e : OneHotEncoder Y)
    (d : MixedDataset Y) (hrows : d.data ≠ []) :
    ∃ out, e.transform d = .ok out ∧
      out.data_columns = oheNames e.fitter.category_map d.data_columns := by
  unfold OneHotEncoder.transform
  cases hm : d.data.map (encodeRow e.fitter.category_map d.data_columns) with
  | nil =>
    rw [List.map_eq_nil_iff] at hm
    exact absurd hm hrows
  | cons r0 rest => exact ⟨_, rfl, rfl⟩

/-- C5: transforming a non-empty `MixedDataset` with a fitted one-hot
encoder yields output column names that replay `data_columns` in order
(one `"<column>_<category>"` name per category, in the map's index
order, for a mapped column; the column name itself otherwise), and the
output column count is the number of unmapped columns plus the sum of
the mapped columns' category counts. -/
theorem spec_C5_onehot_columns {Y : Type} (d0 d : MixedDataset Y)
    (e : OneHotEncoder Y)
    (hfit : OneHotEncoderFitter.fitOn d0 = .ok e)
    (hrows : d.data ≠ []) :
    ∃ out, e.transform d = .ok out ∧
      out.data_columns = d.data_columns.flatMap (fun cn =>
        match alookup e.fitter.category_map cn with
        | some m => m.map (fun p => cn ++ "_" ++ p.1)
        | none => [cn]) ∧
      out.data_columns.length =
        (d.data_columns.filter
          (fun cn => (alookup e.fitter.category_map cn).isNone)).length +
        ((d.data_columns.filterMap
          (fun cn => alookup e.fitter.category_map cn)).map List.length).sum := by
  unfold OneHotEncoderFitter.fitOn at hfit
  simp only [Except.ok.injEq] at hfit
  subst hfit
  have hP : ∀ q ∈ oheFitCategoryMap d0, IdxFrom 0 q.2 := by
    intro q hq
    exact (fitCatMapGo_mem d0.data d0.data_columns 0 []
      (by intro q' hq'; simp at hq') q hq).1
  obtain ⟨out, htr, hnames⟩ :=
    transform_ok_names
      ({ fitter := { category_map := oheFitCategoryMap d0, fit := .Fit } } :
        OneHotEncoder Y) d hrows
  refine ⟨out, htr, ?_, ?_⟩
  · rw [hnames]
    exact oheNames_eq_insertion _ hP d.data_columns
  · rw [hnames]
    exact oheNames_length _ hP d.data_columns

/-- Witness for C5: transforming `mdW` with its own fitted encoder. -/
theorem spec_C5_witness :
    ∃ out, oheW.transform mdW = .ok out ∧
      out.data_columns = mdW.data_columns.flatMap (fun cn =>
        match alookup oheW.fitter.category_map cn with
        | some m => m.map (fun p => cn ++ "_" ++ p.1)
        | none => [cn]) ∧
      out.data_columns.length =
        (mdW.data_columns.filter
          (fun cn => (alookup oheW.fitter.category_map cn).isNone)).length +
        ((mdW.data_columns.filterMap
          (fun cn => alookup oheW.fitter.category_map cn)).map List.length).sum :=
  spec_C5_onehot_columns mdW mdW oheW rfl (by simp [mdW])

/-! ## C9 — categorical cell in an unmapped column -/

theorem encodeCell_unmapped (cm : List (String × List (String × Nat)))
    (cn : String) (v : String) (hcn : alookup cm cn = none) :
    encodeCell cm cn (.Categorical v) = [] := by
  simp [encodeCell, hcn]

theorem encode_enumFrom_shift (cm : List (String × List (String × Nat)))
    (c : String) (cs : List String) :
    ∀ (xs : List MixedDataValue) (k : Nat),
      (List.enumFrom (k + 1) xs).flatMap
        (fun p => encodeCell cm ((c :: cs).getD p.1 "") p.2) =
      (List.enumFrom k xs).flatMap
        (fun p => encodeCell cm (cs.getD p.1 "") p.2) := by
  intro xs
  induction xs with
  | nil => intro k; rfl
  | cons x xs ih =>
    intro k
    rw [List.enumFrom_cons, List.enumFrom_cons, List.flatMap_cons,
      List.flatMap_cons, ih (k + 1)]
    congr 1

theorem encodeRow_cons (cm : List (String × List (String × Nat)))
    (c : String) (cs : List String) (x : MixedDataValue)
    (xs : List MixedDataValue) :
    encodeRow cm (c :: cs) (x :: xs) =
      encodeCell cm c x ++ encodeRow cm cs xs := by
  unfold encodeRow
  show (List.enumFrom 0 (x :: xs)).flatMap
      (fun p => encodeCell cm ((c :: cs).getD p.1 "") p.2) = _
  rw [List.enumFrom_cons, List.flatMap_cons, encode_enumFrom_shift cm c cs xs 0]
  rfl

theorem oheColNames_length_pos (cm : List (String × List (String × Nat)))
    (cn : String) (hP : ∀ q ∈ cm, q.2 ≠ []) :
    1 ≤ (oheColNames cm cn).length := by
  unfold oheColNames
  cases hcn : alookup cm cn with
  | none => simp
  | some m =>
    have hne : m ≠ [] := hP (cn, m) (alookup_mem _ cn m hcn)
    simp only [List.length_map, sortByIdx_length]
    have : 0 < m.length := List.length_pos.2 hne
    omega

theorem encodeCell_length_le (cm : List (String × List (String × Nat)))
    (cn : String) (x : MixedDataValue) (hP : ∀ q ∈ cm, q.2 ≠ []) :
    (encodeCell cm cn x).length ≤ (oheColNames cm cn).length := by
  cases x with
  | Numeric num =>
    show ([num] : List Rat).length ≤ _
    rw [List.length_singleton]
    exact oheColNames_length_pos cm cn hP
  | Categorical v =>
    unfold encodeCell oheColNames
    cases hcn : alookup cm cn with
    | none => simp
    | some m =>
      cases hv : alookup m v with
      | some idx => simp [hv, sortByIdx_length]
      | none => simp [hv, sortByIdx_length]

theorem encodeRow_length_le (cm : List (String × List (String × Nat)))
    (hP : ∀ q ∈ cm, q.2 ≠ []) :
    ∀ (cols : List String) (row : List MixedDataValue),
      row.length = cols.length →
      (encodeRow cm cols row).length ≤ (oheNames cm cols).length := by
  intro cols
  induction cols with
  | nil =>
    intro row hlen
    rw [List.length_nil] at hlen
    rw [List.length_eq_zero.1 hlen]
    exact Nat.le_refl _
  | cons c cs ih =>
    intro row hlen
    cases row with
    | nil => simp at hlen
    | cons x xs =>
      rw [encodeRow_cons, oheNames_cons, List.length_append, List.length_append]
      have h1 := encodeCell_length_le cm c x hP
      have h2 := ih xs (by simpa using hlen)
      omega

theorem encodeRow_length_lt (cm : List (String × List (String × Nat)))
    (hP : ∀ q ∈ cm, q.2 ≠ []) :
    ∀ (cols : List String) (row : List MixedDataValue) (j : Nat) (v : String),
      row.length = cols.length →
      row[j]? = some (.Categorical v) →
      alookup cm (cols.getD j "") = none →
      (encodeRow cm cols row).length < (oheNames cm cols).length := by
  intro cols
  induction cols with
  | nil =>
    intro row j v hlen hj _
    rw [List.length_nil] at hlen
    rw [List.length_eq_zero.1 hlen] at hj
    simp at hj
  | cons c cs ih =>
    intro row j v hlen hj hnone
    cases row with
    | nil => simp at hlen
    | cons x xs =>
      rw [encodeRow_cons, oheNames_cons, List.length_append, List.length_append]
      cases j with
      | zero =>
        have hx : x = .Categorical v := by simpa using hj
        subst hx
        have hc : alookup cm c = none := by simpa using hnone
        rw [encodeCell_unmapped cm c v hc]
        have h1 : 1 ≤ (oheColNames cm c).length := oheColNames_length_pos cm c hP
        have h2 := encodeRow_length_le cm hP cs xs (by simpa using hlen)
        simp only [List.length_nil]
        omega
      | succ j =>
        have h1 := encodeCell_length_le cm c x hP
        have h2 := ih xs j v (by simpa using hlen) (by simpa using hj)
          (by simpa using hnone)
        omega

/-- C9: for a fitted one-hot encoder, a `Categorical` cell in a column
absent from the fitted category map contributes no output values — the
cell is silently skipped with no error — so a row containing such a cell
produces strictly fewer values than the output column-name list. -/
theorem spec_C9_onehot_unmapped_skip {Y : Type} (d0 : MixedDataset Y)
    (e : OneHotEncoder Y) (cols : List String) (row : List MixedDataValue)
    (j : Nat) (v : String)
    (hfit : OneHotEncoderFitter.fitOn d0 = .ok e)
    (hlen : row.length = cols.length)
    (hj : row[j]? = some (.Categorical v))
    (hnone : alookup e.fitter.category_map (cols.getD j "") = none) :
    encodeCell e.fitter.category_map (cols.getD j "") (.Categorical v) = [] ∧
    (encodeRow e.fitter.category_map cols row).length <
      (oheNames e.fitter.category_map cols).length := by
  unfold OneHotEncoderFitter.fitOn at hfit
  simp only [Except.ok.injEq] at hfit
  subst hfit
  have hP : ∀ q ∈ oheFitCategoryMap d0, q.2 ≠ [] := by
    intro q hq
    exact (fitCatMapGo_mem d0.data d0.data_columns 0 []
      (by intro q' hq'; simp at hq') q hq).2
  exact ⟨encodeCell_unmapped _ _ v hnone,
    encodeRow_length_lt _ hP cols row j v hlen hj hnone⟩

/-- Witness for C9: a row whose second cell is categorical in the
numeric (unmapped) column `size` yields 2 values against 3 output
column names. -/
theorem spec_C9_witness :
    encodeCell oheW.fitter.category_map (["color", "size"].getD 1 "")
      (.Categorical "huge") = [] ∧
    (encodeRow oheW.fitter.category_map ["color", "size"]
      [MixedDataValue.Categorical "r", MixedDataValue.Categorical "huge"]).length <
      (oheNames oheW.fitter.category_map ["color", "size"]).length :=
  spec_C9_onehot_unmapped_skip mdW oheW ["color", "size"]
    [MixedDataValue.Categorical "r", MixedDataValue.Categorical "huge"]
    1 "huge" rfl rfl rfl rfl

/-! ## C10 — numeric-listed target column in mixed ingestion -/

theorem position_getElem (target : String) :
    ∀ (hs : List String) (i : Nat), position target hs = some i →
      hs[i]? = some target := by
  intro hs
  induction hs with
  | nil => intro i h; simp [position] at h
  | cons h0 hs ih =>
    intro i h
    unfold position at h
    by_cases he : h0 = target
    · rw [if_pos he] at h
      have h0i : i = 0 := by
        have := Option.some.inj h
        omega
      subst h0i
      simp [he]
    · rw [if_neg he] at h
      cases hp : position target hs with
      | none => rw [hp] at h; simp at h
      | some j =>
        rw [hp] at h
        simp only [Option.map_some'] at h
        have hji : j + 1 = i := Option.some.inj h
        subst hji
        simpa using ih j hp

theorem mixedDataValueOf_error (parseF : String → Option Rat)
    (nidx : List Nat) (i : Nat) (c : String) (k : ErrorKind)
    (h : mixedDataValueOf parseF nidx i c = .error k) : k = .InvalidData := by
  unfold mixedDataValueOf at h
  by_cases hni : i ∈ nidx
  · rw [if_pos hni] at h
    cases hpf : parseF c with
    | none => rw [hpf] at h; exact (Except.error.inj h).symm
    | some x => rw [hpf] at h; simp at h
  · rw [if_neg hni] at h
    simp at h

theorem mixedCells_error_eq {τ : Type} (pF : String → Option Rat)
    (pY : String → Option τ) (ti : Nat) (nidx : List Nat) :
    ∀ (cells : List String) (i : Nat) (k : ErrorKind),
      mixedCells pF pY ti nidx i cells = .error k → k = .InvalidData := by
  intro cells
  induction cells with
  | nil => intro i k h; simp [mixedCells] at h
  | cons c cs ih =>
    intro i k h
    unfold mixedCells at h
    cases hdv : mixedDataValueOf pF nidx i c with
    | error k' =>
      rw [hdv] at h
      have hk : k' = k := Except.error.inj h
      exact hk ▸ mixedDataValueOf_error pF nidx i c k' hdv
    | ok v =>
      simp only [hdv] at h
      by_cases hti : i = ti
      · rw [if_pos hti] at h
        cases hpy : pY c with
        | none =>
          rw [hpy] at h
          exact (Except.error.inj h).symm
        | some y =>
          rw [hpy] at h
          cases hrec : mixedCells pF pY ti nidx (i + 1) cs with
          | error k2 =>
            rw [hrec] at h
            have hk : k2 = k := Except.error.inj h
            exact hk ▸ ih (i + 1) k2 hrec
          | ok pr =>
            obtain ⟨fs, ys⟩ := pr
            rw [hrec] at h
            simp at h
      · rw [if_neg hti] at h
        cases hrec : mixedCells pF pY ti nidx (i + 1) cs with
        | error k2 =>
          rw [hrec] at h
          have hk : k2 = k := Except.error.inj h
          exact hk ▸ ih (i + 1) k2 hrec
        | ok pr =>
          obtain ⟨fs, ys⟩ := pr
          rw [hrec] at h
          simp at h

theorem mixedCells_bad_target {τ : Type} (pF : String → Option Rat)
    (pY : String → Option τ) (ti : Nat) (nidx : List Nat) :
    ∀ (cells : List String) (i j : Nat) (c : String),
      cells[j]? = some c → (i + j) ∈ nidx → pF c = none →
      mixedCells pF pY ti nidx i cells = .error .InvalidData := by
  intro cells
  induction cells with
  | nil => intro i j c hj _ _; simp at hj
  | cons c0 cs ih =>
    intro i j c hj hni hpf
    cases j with
    | zero =>
      have hc : c0 = c := by simpa using hj
      subst hc
      have hni' : i ∈ nidx := by simpa using hni
      have hdv : mixedDataValueOf pF nidx i c0 = .error .InvalidData := by
        unfold mixedDataValueOf
        rw [if_pos hni', hpf]
      unfold mixedCells
      simp only [hdv]
    | succ j =>
      have hrec : mixedCells pF pY ti nidx (i + 1) cs = .error .InvalidData := by
        refine ih (i + 1) j c (by simpa using hj) ?_ hpf
        have harith : i + 1 + j = i + (j + 1) := by omega
        rw [harith]
        exact hni
      unfold mixedCells
      cases hdv : mixedDataValueOf pF nidx i c0 with
      | error k =>
        have hk := mixedDataValueOf_error pF nidx i c0 k hdv
        subst hk
        simp only [hdv]
      | ok v =>
        simp only [hdv]
        by_cases hti : i = ti
        · rw [if_pos hti]
          cases hpy : pY c0 with
          | none => rfl
          | some y => simp only [hrec]
        · rw [if_neg hti]
          simp only [hrec]

theorem mixedRecords_bad {τ : Type} (pF : String → Option Rat)
    (pY : String → Option τ) (ti : Nat) (nidx : List Nat) :
    ∀ (records : List (List String)) (r : List String),
      r ∈ records → mixedCells pF pY ti nidx 0 r = .error .InvalidData →
      mixedRecords pF pY ti nidx records = .error .InvalidData := by
  intro records
  induction records with
  | nil => intro r hr _; simp at hr
  | cons r0 rs ih =>
    intro r hr hbad
    unfold mixedRecords
    rcases List.mem_cons.1 hr with h | h
    · subst h
      simp only [hbad]
    · cases h0 : mixedCells pF pY ti nidx 0 r0 with
      | error k =>
        have hk := mixedCells_error_eq pF pY ti nidx r0 0 k h0
        subst hk
        simp only [h0]
      | ok pr =>
        obtain ⟨fs, ys⟩ := pr
        simp only [h0, ih r h hbad]

/-- C10: in `MixedDataset::from_csv`, when the target column's name is in
the caller-supplied numeric column list, a target cell that fails `f64`
parsing makes the whole ingestion fail with `InvalidData` (regardless of
the label parser), because the numeric `data_value` is computed before
the cell is routed to the target vector. -/
theorem spec_C10_mixed_numeric_target {τ : Type}
    (parseF : String → Option Rat) (parseY : String → Option τ)
    (headers : List String) (records : List (List String))
    (target_column : String) (numeric_columns : List String)
    (ti : Nat) (r : List String) (c : String)
    (hpos : position target_column headers = some ti)
    (hnum : target_column ∈ numeric_columns)
    (hr : r ∈ records)
    (hc : r[ti]? = some c)
    (hpf : parseF c = none) :
    MixedDataset.from_csv parseF parseY headers records target_column
      numeric_columns = .error .InvalidData := by
  have hhd : headers[ti]? = some target_column :=
    position_getElem target_column headers ti hpos
  have hti : ti ∈ numericIdxs headers numeric_columns := by
    unfold numericIdxs
    rw [List.mem_filterMap]
    refine ⟨(ti, target_column), ?_, ?_⟩
    · have henum : headers.enum[ti]? = some (ti, target_column) := by
        rw [List.getElem?_enum, hhd]
        rfl
      exact List.getElem?_mem henum
    · simp [hnum]
  have hbadcells : mixedCells parseF parseY ti
      (numericIdxs headers numeric_columns) 0 r = .error .InvalidData := by
    refine mixedCells_bad_target parseF parseY ti _ r 0 ti c hc ?_ hpf
    simpa using hti
  unfold MixedDataset.from_csv
  rw [hpos]
  simp only [mixedRecords_bad parseF parseY ti
    (numericIdxs headers numeric_columns) records r hr hbadcells]

/-- Witness for C10: header `["a", "t"]`, target `"t"` listed numeric,
one record whose target cell `"x"` does not parse as a number. -/
theorem spec_C10_witness :
    MixedDataset.from_csv parseXw parseYw ["a", "t"] [["z", "x"]] "t" ["t"] =
      .error .InvalidData :=
  spec_C10_mixed_numeric_target parseXw parseYw ["a", "t"] [["z", "x"]]
    "t" ["t"] 1 ["z", "x"] "x" rfl (by simp) (by simp) rfl rfl

end RustML
